import Mathlib

/-!
Verification of the string utilities in `packages/utils/src/string.ts` and of
the limit-order hooks in `packages/web/hooks/limit-orders/use-orderbook.ts`.

JavaScript strings are sequences of UTF-16 code units, and `String.length`,
`slice`, `substring` all count code units; we therefore model a JS string as a
`List Nat` of its code units, which agrees with the JavaScript semantics
code-unit for code-unit.
-/

namespace StringUtils

/-- A JS string, modelled as its list of UTF-16 code units. -/
abbrev JSString := List Nat

/-- Code units of a Lean string literal.  Every literal in this file is ASCII,
where code points and UTF-16 code units coincide. -/
def strUnits (s : String) : JSString := s.toList.map Char.toNat

/-- The three-dot delimiter `"..."`. -/
def dots : JSString := strUnits "..."

/-- Embeds `truncate(str, num = 8)`: if `str.length <= num` the string is
returned unchanged, otherwise `str.slice(0, num) + "..."`.  The default
breakpoint at the call site is 8. -/
def truncate (str : JSString) (num : Nat) : JSString :=
  if str.length ≤ num then str else str.take num ++ dots

/-- Embeds `shorten(string, opts)`.  `preLength`, `sufLength` and `delim`
stand for `opts.prefixLength ?? 6`, `opts.suffixLength ?? 5` and
`opts.delim ?? "..."`.  An empty string is falsy, so `!string` yields `""`;
otherwise a short string is returned unchanged and a long one becomes
`substring(0, preLength) + delim + substring(length - sufLength, length)`. -/
def shorten (string : JSString) (preLength sufLength : Nat) (delim : JSString) :
    JSString :=
  if string = [] then []
  else if string.length ≤ preLength + sufLength then string
  else string.take preLength ++ delim ++ string.drop (string.length - sufLength)

/-- Whitespace recognised by JS `String.prototype.trim`: the ECMAScript
WhiteSpace and LineTerminator code points. -/
def isJsSpace (n : Nat) : Bool :=
  n = 9 || n = 10 || n = 11 || n = 12 || n = 13 || n = 32 || n = 0xA0 ||
  n = 0x1680 || (0x2000 ≤ n && n ≤ 0x200A) || n = 0x2028 || n = 0x2029 ||
  n = 0x202F || n = 0x205F || n = 0x3000 || n = 0xFEFF

/-- Embeds `str.trim()`: strips leading and trailing whitespace. -/
def trim (s : JSString) : JSString :=
  ((s.dropWhile isJsSpace).reverse.dropWhile isJsSpace).reverse

/-- Embeds `s.slice(0, e)` for a possibly negative end index `e`: a negative
`e` counts from the end of the string, then the result is clamped to
`[0, s.length]`. -/
def jsSliceFromStart (s : JSString) (e : Int) : JSString :=
  s.take (if e < 0 then ((s.length : Int) + e).toNat else e.toNat)

/-- Embeds `ellipsisText(str, maxLength)`: `""` for an empty string, else the
trimmed string, cut to `trimmed.slice(0, maxLength - 3) + "..."` whenever the
untrimmed length exceeds `maxLength`.  Note that `maxLength - 3` is a JS
subtraction and can be negative. -/
def ellipsisText (str : JSString) (maxLength : Nat) : JSString :=
  if str = [] then []
  else
    let trimmedStr := trim str
    if maxLength < str.length then
      jsSliceFromStart trimmedStr ((maxLength : Int) - 3) ++ dots
    else trimmedStr

/-- Embeds the first step of `normalizeUrl`: `url.replace(/^https?:\/\//, "")`,
which removes one leading `"https://"` or `"http://"`. -/
def stripScheme (url : JSString) : JSString :=
  if (strUnits "https://").isPrefixOf url then url.drop 8
  else if (strUnits "http://").isPrefixOf url then url.drop 7
  else url

/-- Embeds the second step of `normalizeUrl`: `url.replace(/^www\./, "")`,
which removes one leading `"www."`. -/
def stripWww (url : JSString) : JSString :=
  if (strUnits "www.").isPrefixOf url then url.drop 4 else url

/-- Embeds the third step of `normalizeUrl`: `url.replace(/\/$/, "")`, which
removes one trailing `"/"` (code unit 47). -/
def stripTrailingSlash (url : JSString) : JSString :=
  match url.getLast? with
  | some 47 => url.dropLast
  | _ => url

/-- Embeds `normalizeUrl`: strip one scheme, then one `"www."`, then one
trailing slash. -/
def normalizeUrl (url : JSString) : JSString :=
  stripTrailingSlash (stripWww (stripScheme url))

/-- An ASCII upper-case letter, the regex class `[A-Z]`. -/
def isUpperCode (n : Nat) : Bool := 65 ≤ n && n ≤ 90

/-- An ASCII lower-case letter, the regex class `[a-z]`. -/
def isLowerCode (n : Nat) : Bool := 97 ≤ n && n ≤ 122

/-- ASCII case folding as performed by `toLowerCase` on the code units this
code manipulates. -/
def toLowerCode (n : Nat) : Nat := if isUpperCode n then n + 32 else n

/-- Embeds the global replace of `/([a-z])([A-Z])/` by `"$1_$2"`: the scan
moves left to right and a match consumes both characters (95 is `"_"`). -/
def snakeScan : JSString → JSString
  | [] => []
  | [a] => [a]
  | a :: b :: rest =>
    if isLowerCode a && isUpperCode b then a :: 95 :: b :: snakeScan rest
    else a :: snakeScan (b :: rest)

/-- Embeds `camelCaseToSnakeCase`: insert underscores, then lower-case. -/
def camelCaseToSnakeCase (input : JSString) : JSString :=
  (snakeScan input).map toLowerCode

/-- Embeds the global replace of `/[A-Z]/` by `` `-${letter.toLowerCase()}` ``
(45 is `"-"`). -/
def kebabExpand (str : JSString) : JSString :=
  str.flatMap fun n => if isUpperCode n then [45, toLowerCode n] else [n]

/-- Embeds the second step of `camelToKebabCase`, the anchored replace that
removes one leading `"-"`. -/
def stripLeadingDash (s : JSString) : JSString :=
  match s with
  | n :: rest => if n = 45 then rest else n :: rest
  | [] => []

/-- Embeds `camelToKebabCase`: expand upper-case letters, then strip one
leading dash. -/
def camelToKebabCase (str : JSString) : JSString :=
  stripLeadingDash (kebabExpand str)

theorem dots_length : dots.length = 3 := rfl

/-- C5: `truncate` returns the string unchanged when it fits in the
breakpoint, otherwise its first `num` code units followed by `"..."`, and its
output length is at most `num + 3`; `shorten` returns `""` on empty input,
the string unchanged when it fits in `preLength + sufLength`, otherwise the
first `preLength` units, the delimiter, and the last `sufLength` units, and
its output length is at most `preLength + sufLength + delim.length`. -/
theorem truncate_shorten_spec (str s : JSString) (num preLength sufLength : Nat)
    (delim : JSString) :
    (str.length ≤ num → truncate str num = str) ∧
    (num < str.length → truncate str num = str.take num ++ dots) ∧
    (truncate str num).length ≤ num + 3 ∧
    shorten [] preLength sufLength delim = [] ∧
    (s ≠ [] → s.length ≤ preLength + sufLength →
      shorten s preLength sufLength delim = s) ∧
    (preLength + sufLength < s.length →
      shorten s preLength sufLength delim =
        s.take preLength ++ delim ++ s.drop (s.length - sufLength)) ∧
    (shorten s preLength sufLength delim).length ≤
      preLength + sufLength + delim.length := by
  refine ⟨fun h => ?_, fun h => ?_, ?_, rfl, fun h1 h2 => ?_, fun h => ?_, ?_⟩
  · rw [truncate, if_pos h]
  · rw [truncate, if_neg (by omega)]
  · rw [truncate]
    split
    · next h => omega
    · next h =>
      simp only [List.length_append, List.length_take, dots_length]
      omega
  · rw [shorten, if_neg h1, if_pos h2]
  · have h1 : s ≠ [] := by
      intro he
      subst he
      simp at h
    rw [shorten, if_neg h1, if_neg (by omega)]
  · rw [shorten]
    split
    · simp
    · split
      · next h2 => omega
      · next h1 h2 =>
        simp only [List.length_append, List.length_take, List.length_drop]
        omega

/-- C5 witness: the truncating branches of `truncate` and `shorten` at
concrete inputs. -/
theorem truncate_shorten_spec_witness :
    truncate (strUnits "hello world") 8 = (strUnits "hello world").take 8 ++ dots ∧
    shorten (strUnits "abcdefghijklmnop") 6 5 dots =
      (strUnits "abcdefghijklmnop").take 6 ++ dots ++
        (strUnits "abcdefghijklmnop").drop ((strUnits "abcdefghijklmnop").length - 5) := by
  have h := truncate_shorten_spec (strUnits "hello world")
    (strUnits "abcdefghijklmnop") 8 6 5 dots
  exact ⟨h.2.1 (by decide), h.2.2.2.2.2.1 (by decide)⟩

/-- C6 counterexample: for `maxLength = 2` the claimed length bound fails,
because `maxLength - 3` is negative and the JS `slice` then counts from the
end: `ellipsisText("hello", 2)` is `"hell..."` of length 7 > 2. -/
theorem ellipsisText_cex :
    ellipsisText (strUnits "hello") 2 = strUnits "hell..." ∧
    2 < (ellipsisText (strUnits "hello") 2).length := by decide

/-- C6 amended: for `maxLength ≥ 3`, `ellipsisText` returns the trimmed
string when the input fits in `maxLength`, and otherwise the first
`maxLength - 3` units of the trimmed string followed by `"..."`, of total
length at most `maxLength`.  (For `maxLength < 3` the bound fails, see the
counterexample.) -/
theorem ellipsisText_spec (str : JSString) (maxLength : Nat)
    (h3 : 3 ≤ maxLength) :
    (str.length ≤ maxLength → ellipsisText str maxLength = trim str) ∧
    (maxLength < str.length →
      ellipsisText str maxLength = (trim str).take (maxLength - 3) ++ dots ∧
      (ellipsisText str maxLength).length ≤ maxLength) := by
  have hsl : jsSliceFromStart (trim str) ((maxLength : Int) - 3) =
      (trim str).take (maxLength - 3) := by
    rw [jsSliceFromStart, if_neg (by omega)]
    congr 1
    omega
  constructor
  · intro h
    by_cases he : str = []
    · subst he
      rfl
    · rw [ellipsisText, if_neg he, if_neg (by omega)]
  · intro h
    have hne : str ≠ [] := by
      intro he
      subst he
      simp at h
    have heq : ellipsisText str maxLength = (trim str).take (maxLength - 3) ++ dots := by
      rw [ellipsisText, if_neg hne, if_pos h, hsl]
    refine ⟨heq, ?_⟩
    rw [heq]
    simp only [List.length_append, List.length_take, dots_length]
    omega

/-- C6 witness: the truncating branch at a concrete input with
`maxLength = 10`. -/
theorem ellipsisText_spec_witness :
    ellipsisText (strUnits "abcdefghijkl") 10 =
      (trim (strUnits "abcdefghijkl")).take (10 - 3) ++ dots ∧
    (ellipsisText (strUnits "abcdefghijkl") 10).length ≤ 10 :=
  (ellipsisText_spec (strUnits "abcdefghijkl") 10 (by decide)).2 (by decide)

theorem stripTrailingSlash_isPrefix (l : JSString) : stripTrailingSlash l <+: l := by
  rw [stripTrailingSlash]
  split
  · exact List.dropLast_prefix l
  · exact List.prefix_refl l

/-- C7 counterexample: each anchored replace removes only one occurrence, so
`normalizeUrl "a//"` is `"a/"`, which still ends in `"/"` (code unit 47). -/
theorem normalizeUrl_cex :
    normalizeUrl (strUnits "a//") = strUnits "a/" ∧
    (normalizeUrl (strUnits "a//")).getLast? = some 47 := by decide

/-- C7 amended: `normalizeUrl` strips one leading scheme, then one leading
`"www."`, then one trailing `"/"`; provided the string left after the two
leading replaces does not itself begin with a scheme or `"www."` and does not
end with `"//"`, the result never begins with `"http://"`, `"https://"` or
`"www."` and never ends with `"/"`. -/
theorem normalizeUrl_spec (url : JSString)
    (h1 : ¬ strUnits "http://" <+: stripWww (stripScheme url))
    (h2 : ¬ strUnits "https://" <+: stripWww (stripScheme url))
    (h3 : ¬ strUnits "www." <+: stripWww (stripScheme url))
    (h4 : ¬ strUnits "//" <:+ stripWww (stripScheme url)) :
    ¬ strUnits "http://" <+: normalizeUrl url ∧
    ¬ strUnits "https://" <+: normalizeUrl url ∧
    ¬ strUnits "www." <+: normalizeUrl url ∧
    (normalizeUrl url).getLast? ≠ some 47 := by
  have hn : normalizeUrl url = stripTrailingSlash (stripWww (stripScheme url)) := rfl
  set s2 := stripWww (stripScheme url) with hs2
  rw [hn]
  refine ⟨fun hp => h1 (hp.trans (stripTrailingSlash_isPrefix s2)),
    fun hp => h2 (hp.trans (stripTrailingSlash_isPrefix s2)),
    fun hp => h3 (hp.trans (stripTrailingSlash_isPrefix s2)), ?_⟩
  intro hlast
  rw [stripTrailingSlash] at hlast
  revert hlast
  split
  · next hg =>
    intro hlast
    apply h4
    have e1 : s2.dropLast ++ [47] = s2 := List.dropLast_append_getLast? 47 hg
    have e2 : s2.dropLast.dropLast ++ [47] = s2.dropLast :=
      List.dropLast_append_getLast? 47 hlast
    refine ⟨s2.dropLast.dropLast, ?_⟩
    have hd : strUnits "//" = [47, 47] := rfl
    rw [hd]
    calc s2.dropLast.dropLast ++ [47, 47]
        = (s2.dropLast.dropLast ++ [47]) ++ [47] := by simp
      _ = s2.dropLast ++ [47] := by rw [e2]
      _ = s2 := e1
  · next hg =>
    intro hlast
    exact hg hlast

/-- C7 witness: a well-formed URL with one scheme, one `"www."` and one
trailing slash normalizes to a string with none of them. -/
theorem normalizeUrl_spec_witness :
    ¬ strUnits "http://" <+: normalizeUrl (strUnits "https://www.example.com/") ∧
    ¬ strUnits "https://" <+: normalizeUrl (strUnits "https://www.example.com/") ∧
    ¬ strUnits "www." <+: normalizeUrl (strUnits "https://www.example.com/") ∧
    (normalizeUrl (strUnits "https://www.example.com/")).getLast? ≠ some 47 :=
  normalizeUrl_spec (strUnits "https://www.example.com/") (by decide) (by decide)
    (by decide) (by decide)

theorem isUpperCode_toLowerCode (n : Nat) : isUpperCode (toLowerCode n) = false := by
  rw [toLowerCode]
  split
  · next h =>
    simp only [isUpperCode, Bool.and_eq_true, decide_eq_true_eq] at h
    simp only [isUpperCode, Bool.and_eq_false_iff, decide_eq_false_iff_not]
    omega
  · next h =>
    simp only [isUpperCode, Bool.and_eq_true, decide_eq_true_eq] at h
    simp only [isUpperCode, Bool.and_eq_false_iff, decide_eq_false_iff_not]
    omega

theorem toLowerCode_of_not_upper {n : Nat} (h : isUpperCode n = false) :
    toLowerCode n = n := by
  simp [toLowerCode, h]

theorem map_toLowerCode_map_toLowerCode (l : JSString) :
    (l.map toLowerCode).map toLowerCode = l.map toLowerCode := by
  induction l with
  | nil => rfl
  | cons a t ih =>
    simp only [List.map_cons, ih, List.cons.injEq, and_true]
    exact toLowerCode_of_not_upper (isUpperCode_toLowerCode a)

theorem not_upper_mem_map_toLowerCode (l : JSString) :
    ∀ n ∈ l.map toLowerCode, isUpperCode n = false := by
  intro n hn
  obtain ⟨m, _, rfl⟩ := List.mem_map.mp hn
  exact isUpperCode_toLowerCode m

theorem snakeScan_of_forall_not_upper :
    ∀ l : JSString, (∀ n ∈ l, isUpperCode n = false) → snakeScan l = l
  | [], _ => rfl
  | [_], _ => rfl
  | a :: b :: rest, h => by
    have hb : isUpperCode b = false := h b (by simp)
    have ih := snakeScan_of_forall_not_upper (b :: rest)
      (fun n hn => h n (List.mem_cons_of_mem a hn))
    simp [snakeScan, hb, ih]

theorem not_upper_mem_kebabExpand (l : JSString) :
    ∀ n ∈ kebabExpand l, isUpperCode n = false := by
  intro n hn
  rw [kebabExpand, List.mem_flatMap] at hn
  obtain ⟨m, _, hm⟩ := hn
  by_cases hu : isUpperCode m = true
  · rw [if_pos hu] at hm
    simp only [List.mem_cons, List.not_mem_nil, or_false] at hm
    rcases hm with rfl | rfl
    · decide
    · exact isUpperCode_toLowerCode m
  · rw [if_neg hu] at hm
    simp only [List.mem_singleton] at hm
    subst hm
    simpa using hu

theorem kebabExpand_of_forall_not_upper (l : JSString)
    (h : ∀ n ∈ l, isUpperCode n = false) : kebabExpand l = l := by
  induction l with
  | nil => rfl
  | cons a t ih =>
    have ha : isUpperCode a = false := h a (by simp)
    have ht := ih (fun n hn => h n (List.mem_cons_of_mem a hn))
    have step : kebabExpand (a :: t) =
        (if isUpperCode a then [45, toLowerCode a] else [a]) ++ kebabExpand t := rfl
    rw [step, if_neg (by simp [ha]), ht]
    rfl

theorem mem_stripLeadingDash (l : JSString) : ∀ n ∈ stripLeadingDash l, n ∈ l := by
  intro n hn
  rw [stripLeadingDash.eq_def] at hn
  revert hn
  split
  · split
    · exact fun hn => List.mem_cons_of_mem _ hn
    · exact fun hn => hn
  · exact fun hn => hn

theorem stripLeadingDash_of_head_ne (l : JSString) (h : l.head? ≠ some 45) :
    stripLeadingDash l = l := by
  rw [stripLeadingDash.eq_def]
  split
  · next n rest =>
    rw [if_neg]
    intro he
    subst he
    exact h rfl
  · rfl

/-- C8 counterexample: `camelToKebabCase` is not stable on its own output:
`camelToKebabCase "-A" = "-a"`, but applying it again strips the remaining
leading dash and yields `"a"`. -/
theorem camelToKebabCase_cex :
    camelToKebabCase (strUnits "-A") = strUnits "-a" ∧
    camelToKebabCase (camelToKebabCase (strUnits "-A")) = strUnits "a" ∧
    camelToKebabCase (camelToKebabCase (strUnits "-A")) ≠
      camelToKebabCase (strUnits "-A") := by decide

/-- C8 amended: `camelCaseToSnakeCase` is stable on its own output for every
string; `camelToKebabCase` is stable on its own output whenever that output
does not begin with `"-"` (it strips one leading dash per application, so any
input beginning with `"--"` or `"-"` plus an upper-case letter is a
counterexample). -/
theorem caseConversion_stable (s t : JSString)
    (h : (camelToKebabCase t).head? ≠ some 45) :
    camelCaseToSnakeCase (camelCaseToSnakeCase s) = camelCaseToSnakeCase s ∧
    camelToKebabCase (camelToKebabCase t) = camelToKebabCase t := by
  constructor
  · calc camelCaseToSnakeCase (camelCaseToSnakeCase s)
        = (snakeScan ((snakeScan s).map toLowerCode)).map toLowerCode := rfl
      _ = ((snakeScan s).map toLowerCode).map toLowerCode := by
          rw [snakeScan_of_forall_not_upper _ (not_upper_mem_map_toLowerCode _)]
      _ = (snakeScan s).map toLowerCode := map_toLowerCode_map_toLowerCode _
      _ = camelCaseToSnakeCase s := rfl
  · have hnu : ∀ n ∈ camelToKebabCase t, isUpperCode n = false :=
      fun n hn => not_upper_mem_kebabExpand t n (mem_stripLeadingDash _ n hn)
    calc camelToKebabCase (camelToKebabCase t)
        = stripLeadingDash (kebabExpand (camelToKebabCase t)) := rfl
      _ = stripLeadingDash (camelToKebabCase t) := by
          rw [kebabExpand_of_forall_not_upper _ hnu]
      _ = camelToKebabCase t := stripLeadingDash_of_head_ne _ h

/-- C8 witness: stability at the concrete camel-case input `"fooBar"`. -/
theorem caseConversion_stable_witness :
    camelCaseToSnakeCase (camelCaseToSnakeCase (strUnits "fooBar")) =
      camelCaseToSnakeCase (strUnits "fooBar") ∧
    camelToKebabCase (camelToKebabCase (strUnits "fooBar")) =
      camelToKebabCase (strUnits "fooBar") :=
  caseConversion_stable (strUnits "fooBar") (strUnits "fooBar") (by decide)

/-- Result of `bitcoin.address.fromBase58Check`: a version byte and a hash
payload (the payload is not inspected by the validator). -/
structure Base58CheckResult where
  version : Nat
  hash : List Nat
deriving DecidableEq

/-- Result of a bech32 decode (`bitcoin.address.fromBech32` or
`cosmjsEncoding.fromBech32`): the human-readable part and the data bytes. -/
structure Bech32Result where
  hrp : String
  data : List Nat
deriving DecidableEq

/-- Version bytes of `bitcoin.networks.bitcoin` and
`bitcoin.networks.testnet` in bitcoinjs-lib. -/
def mainnetPubKeyHash : Nat := 0x00

def mainnetScriptHash : Nat := 0x05

def testnetPubKeyHash : Nat := 0x6f

def testnetScriptHash : Nat := 0xc4

/-- The `env` argument of `isBitcoinAddressValid`. -/
inductive BtcEnv
  | mainnet
  | testnet
deriving DecidableEq, BEq

/-- Embeds `isBitcoinAddressValid`.  The two decoders are the external
bitcoinjs-lib functions, passed in abstractly; a decoder returning `none`
models a decoder that throws.  Base58Check decoding is attempted first; only
when it throws is bech32 decoding attempted; any other failure yields
`false`. -/
def isBitcoinAddressValid
    (fromBase58Check : String → Option Base58CheckResult)
    (fromBech32 : String → Option Bech32Result)
    (address : String) (env : BtcEnv) : Bool :=
  match fromBase58Check address with
  | some decoded =>
    let isTestnet : Bool :=
      decoded.version == testnetPubKeyHash || decoded.version == testnetScriptHash
    let isMainnet : Bool :=
      decoded.version == mainnetPubKeyHash || decoded.version == mainnetScriptHash
    (decide (env = BtcEnv.mainnet) && isMainnet) ||
      (decide (env = BtcEnv.testnet) && isTestnet)
  | none =>
    match fromBech32 address with
    | some decoded =>
      let isTestnet : Bool := decoded.hrp == "tb" || decoded.hrp == "bcrt"
      let isMainnet : Bool := decoded.hrp == "bc"
      (decide (env = BtcEnv.mainnet) && isMainnet) ||
        (decide (env = BtcEnv.testnet) && isTestnet)
    | none => false

/-- Embeds `isCosmosAddressValid`: decode as bech32 (a throwing decode yields
`false`), reject a wrong human-readable part, then require exactly 20 data
bytes. -/
def isCosmosAddressValid (fromBech32 : String → Option Bech32Result)
    (address : String) (bech32Pre : String) : Bool :=
  match fromBech32 address with
  | some r => if r.hrp ≠ bech32Pre then false else r.data.length == 20
  | none => false

/-- Version bytes accepted for a given environment, as the claim words them:
the mainnet or testnet pubKeyHash/scriptHash bytes. -/
def versionMatchesEnv (env : BtcEnv) (version : Nat) : Bool :=
  match env with
  | BtcEnv.mainnet => version == mainnetPubKeyHash || version == mainnetScriptHash
  | BtcEnv.testnet => version == testnetPubKeyHash || version == testnetScriptHash

/-- Bech32 human-readable parts accepted for a given environment, as the
claim words them: `"bc"` for mainnet, `"tb"` or `"bcrt"` for testnet. -/
def hrpMatchesEnv (env : BtcEnv) (hrp : String) : Bool :=
  match env with
  | BtcEnv.mainnet => hrp == "bc"
  | BtcEnv.testnet => hrp == "tb" || hrp == "bcrt"

/-- C4: the validators are total Boolean functions; assuming no string
decodes both as Base58Check and as bech32 (true of the actual address
formats), `isBitcoinAddressValid` accepts exactly the strings that decode as
Base58Check with a version byte of the requested network or as bech32 with a
human-readable part of the requested network, and `isCosmosAddressValid`
accepts exactly the strings that decode as bech32 with the given hrp and
exactly 20 data bytes; undecodable strings are rejected. -/
theorem addressValidators_spec
    (fromBase58Check : String → Option Base58CheckResult)
    (fromBech32 : String → Option Bech32Result)
    (addr : String) (env : BtcEnv) (pre : String)
    (hdisj : fromBase58Check addr = none ∨ fromBech32 addr = none) :
    (isBitcoinAddressValid fromBase58Check fromBech32 addr env = true ↔
      (∃ d, fromBase58Check addr = some d ∧ versionMatchesEnv env d.version = true) ∨
      (∃ r, fromBech32 addr = some r ∧ hrpMatchesEnv env r.hrp = true)) ∧
    (isCosmosAddressValid fromBech32 addr pre = true ↔
      ∃ r, fromBech32 addr = some r ∧ r.hrp = pre ∧ r.data.length = 20) := by
  constructor
  · cases h58 : fromBase58Check addr with
    | some d =>
      have h32 : fromBech32 addr = none := by
        cases hdisj with
        | inl h => rw [h58] at h; cases h
        | inr h => exact h
      cases env <;>
        simp [isBitcoinAddressValid, h58, h32, versionMatchesEnv]
    | none =>
      cases h32 : fromBech32 addr with
      | some r =>
        cases env <;>
          simp [isBitcoinAddressValid, h58, h32, hrpMatchesEnv]
      | none =>
        cases env <;>
          simp [isBitcoinAddressValid, h58, h32]
  · cases h32 : fromBech32 addr with
    | some r =>
      by_cases hp : r.hrp = pre <;>
        simp [isCosmosAddressValid, h32, hp]
    | none =>
      simp [isCosmosAddressValid, h32]

/-- C4 witness: concrete decoders, one decoding every string as a mainnet
pubKeyHash Base58Check payload and one always throwing. -/
theorem addressValidators_spec_witness :
    (isBitcoinAddressValid (fun _ => some ⟨0, []⟩) (fun _ => none) "x"
        BtcEnv.mainnet = true ↔
      (∃ d, (fun (_ : String) => some (⟨0, []⟩ : Base58CheckResult)) "x" = some d ∧
        versionMatchesEnv BtcEnv.mainnet d.version = true) ∨
      (∃ r, (fun (_ : String) => (none : Option Bech32Result)) "x" = some r ∧
        hrpMatchesEnv BtcEnv.mainnet r.hrp = true)) ∧
    (isCosmosAddressValid (fun _ => none) "x" "osmo" = true ↔
      ∃ r, (fun (_ : String) => (none : Option Bech32Result)) "x" = some r ∧
        r.hrp = "osmo" ∧ r.data.length = 20) :=
  addressValidators_spec (fun _ => some ⟨0, []⟩) (fun _ => none) "x"
    BtcEnv.mainnet "osmo" (Or.inr rfl)

end StringUtils

namespace UseOrderbook

/-! Embedding of `use-orderbook.ts`.  A hook is modelled as a pure function
of the states of the external queries it consumes; the function-valued fields
handed back by the query library (`fetchNextPage`, `refetch`) are opaque
values of a type parameter `F`.  The `enabled:` option each hook passes to a
query is modelled as a separate Boolean function of the hook's inputs. -/

/-- The fields of a react-query infinite-query result that `useOrdersQuery`
re-exposes. -/
structure InfQueryResult (α F : Type) where
  data : Option α
  isLoading : Bool
  fetchNextPage : F
  isFetching : Bool
  isFetchingNextPage : Bool
  hasNextPage : Option Bool
  refetch : F
  isRefetching : Bool
deriving DecidableEq

/-- One page of an infinite query. -/
structure Page (β : Type) where
  items : List β
  nextCursor : Option Nat
deriving DecidableEq

/-- The `data` of an infinite query: its fetched pages. -/
structure InfData (β : Type) where
  pages : List (Page β)
deriving DecidableEq

/-- Embeds the return value of `useOrdersQuery`: every field is a
`sqsActiveOrders ? sqsField : nodeField` conditional. -/
def useOrdersQuery {α F : Type} (sqsActiveOrders : Bool)
    (sqs node : InfQueryResult α F) : InfQueryResult α F where
  data := if sqsActiveOrders then sqs.data else node.data
  isLoading := if sqsActiveOrders then sqs.isLoading else node.isLoading
  fetchNextPage := if sqsActiveOrders then sqs.fetchNextPage else node.fetchNextPage
  isFetching := if sqsActiveOrders then sqs.isFetching else node.isFetching
  isFetchingNextPage :=
    if sqsActiveOrders then sqs.isFetchingNextPage else node.isFetchingNextPage
  hasNextPage := if sqsActiveOrders then sqs.hasNextPage else node.hasNextPage
  refetch := if sqsActiveOrders then sqs.refetch else node.refetch
  isRefetching := if sqsActiveOrders then sqs.isRefetching else node.isRefetching

/-- The `!!userAddress && addresses.length > 0` part shared by the `enabled:`
options of both order queries. -/
def ordersQueryBaseEnabled (userAddress : String) (addresses : List String) : Bool :=
  (userAddress != "") && decide (0 < addresses.length)

/-- The `enabled:` option of the SQS passthrough orders query. -/
def sqsOrdersEnabled (userAddress : String) (addresses : List String)
    (sqsActiveOrders : Bool) : Bool :=
  ordersQueryBaseEnabled userAddress addresses && sqsActiveOrders

/-- The `enabled:` option of the direct node orders query. -/
def nodeOrdersEnabled (userAddress : String) (addresses : List String)
    (sqsActiveOrders : Bool) : Bool :=
  ordersQueryBaseEnabled userAddress addresses && !sqsActiveOrders

/-- Embeds `claimableOrders?.pages?.flatMap((page) => page.items) ?? []`. -/
def sqsFlatten {β : Type} (d : Option (InfData β)) : List β :=
  match d with
  | some d => d.pages.flatMap Page.items
  | none => []

/-- Embeds the `orders` memo of `useClaimableOrdersQuery`: the node data when
the flag is off, otherwise the flattened SQS pages. -/
def useClaimableOrdersQueryData {β : Type} (sqsActiveOrders : Bool)
    (claimableOrders : Option (InfData β)) (nodeClaimableOrders : Option (List β)) :
    Option (List β) :=
  if !sqsActiveOrders then nodeClaimableOrders
  else some (sqsFlatten claimableOrders)

/-- Embeds the `isLoading` field of `useClaimableOrdersQuery`. -/
def useClaimableOrdersQueryIsLoading (sqsActiveOrders isLoading nodeIsLoading : Bool) :
    Bool :=
  if sqsActiveOrders then isLoading else nodeIsLoading

/-- The `!!userAddress && addresses.length > 0 && !disabled` part shared by
the `enabled:` options of both claimable-order queries. -/
def claimableBaseEnabled (userAddress : String) (addresses : List String)
    (disabled : Bool) : Bool :=
  (userAddress != "") && decide (0 < addresses.length) && !disabled

/-- The `enabled:` option of the SQS claimable-orders query. -/
def sqsClaimableEnabled (userAddress : String) (addresses : List String)
    (disabled sqsActiveOrders : Bool) : Bool :=
  claimableBaseEnabled userAddress addresses disabled && sqsActiveOrders

/-- The `enabled:` option of the node claimable-orders query. -/
def nodeClaimableEnabled (userAddress : String) (addresses : List String)
    (disabled sqsActiveOrders : Bool) : Bool :=
  claimableBaseEnabled userAddress addresses disabled && !sqsActiveOrders

/-- C1: when `sqsActiveOrders` is true, `useOrdersQuery` returns exactly the
SQS query's fields and the node query is disabled, with the SQS query's
enablement reduced to the base condition; when the flag is false the roles
are swapped.  Likewise for `useClaimableOrdersQuery`: the flag picks which
backend supplies `data` (the SQS branch flattens its pages) and `isLoading`,
and disables the other backend's query.  The result shape is the same either
way. -/
theorem ordersQuery_backend_selection {α F β : Type}
    (sqs node : InfQueryResult α F) (userAddress : String)
    (addresses : List String) (disabled : Bool)
    (sqsData : Option (InfData β)) (nodeData : Option (List β))
    (sqsLoading nodeLoading : Bool) :
    (useOrdersQuery true sqs node = sqs ∧
      sqsOrdersEnabled userAddress addresses true =
        ordersQueryBaseEnabled userAddress addresses ∧
      nodeOrdersEnabled userAddress addresses true = false) ∧
    (useOrdersQuery false sqs node = node ∧
      nodeOrdersEnabled userAddress addresses false =
        ordersQueryBaseEnabled userAddress addresses ∧
      sqsOrdersEnabled userAddress addresses false = false) ∧
    (useClaimableOrdersQueryData true sqsData nodeData = some (sqsFlatten sqsData) ∧
      useClaimableOrdersQueryIsLoading true sqsLoading nodeLoading = sqsLoading ∧
      sqsClaimableEnabled userAddress addresses disabled true =
        claimableBaseEnabled userAddress addresses disabled ∧
      nodeClaimableEnabled userAddress addresses disabled true = false) ∧
    (useClaimableOrdersQueryData false sqsData nodeData = nodeData ∧
      useClaimableOrdersQueryIsLoading false sqsLoading nodeLoading = nodeLoading ∧
      nodeClaimableEnabled userAddress addresses disabled false =
        claimableBaseEnabled userAddress addresses disabled ∧
      sqsClaimableEnabled userAddress addresses disabled false = false) := by
  refine ⟨⟨rfl, ?_, ?_⟩, ⟨rfl, ?_, ?_⟩, ⟨rfl, rfl, ?_, ?_⟩, ⟨rfl, rfl, ?_, ?_⟩⟩ <;>
    simp [sqsOrdersEnabled, nodeOrdersEnabled, sqsClaimableEnabled,
      nodeClaimableEnabled]

/-- An order-book record as consumed by `useOrderbook`; `poolId` is absent or
empty for an order-book that has no pool. -/
structure Orderbook where
  contractAddress : String
  poolId : Option String
  baseDenom : String
  quoteDenom : String
deriving DecidableEq

/-- An error surfaced by the external query client. -/
structure QueryError where
  message : String
deriving DecidableEq

/-- The `!orderbook || !orderbook!.poolId || orderbook!.poolId === ""` test,
guarded by `!isOrderbookLoading`. -/
def noOrderbookCond (isOrderbookLoading : Bool) (orderbook : Option Orderbook) :
    Bool :=
  !isOrderbookLoading &&
    (match orderbook with
     | none => true
     | some ob =>
       match ob.poolId with
       | none => true
       | some pid => pid == "")

/-- Embeds the `error` memo of `useOrderbook`: the display code
`"errors.noOrderbook"` once loading has finished and no usable order-book was
found, otherwise the maker-fee query's own error message, if any. -/
def useOrderbookError (isOrderbookLoading : Bool) (orderbook : Option Orderbook)
    (makerFeeError : Option QueryError) : Option String :=
  if noOrderbookCond isOrderbookLoading orderbook then some "errors.noOrderbook"
  else makerFeeError.map QueryError.message

/-- C3: once order-book loading has finished, a missing order-book or a
missing/empty `poolId` yields exactly the display code
`"errors.noOrderbook"`; in every other case the hook's error is the
maker-fee query's own error message passed through unmodified (and absent
when that query has no error). -/
theorem useOrderbookError_spec (isOrderbookLoading : Bool)
    (orderbook : Option Orderbook) (makerFeeError : Option QueryError) :
    (isOrderbookLoading = false →
      (orderbook = none ∨
        ∃ ob, orderbook = some ob ∧ (ob.poolId = none ∨ ob.poolId = some "")) →
      useOrderbookError isOrderbookLoading orderbook makerFeeError =
        some "errors.noOrderbook") ∧
    (noOrderbookCond isOrderbookLoading orderbook = false →
      useOrderbookError isOrderbookLoading orderbook makerFeeError =
        makerFeeError.map QueryError.message) ∧
    (isOrderbookLoading = true →
      useOrderbookError isOrderbookLoading orderbook makerFeeError =
        makerFeeError.map QueryError.message) := by
  refine ⟨fun hl hc => ?_, fun hc => ?_, fun hl => ?_⟩
  · have : noOrderbookCond isOrderbookLoading orderbook = true := by
      subst hl
      rcases hc with rfl | ⟨ob, rfl, hp | hp⟩
      · simp [noOrderbookCond]
      · simp [noOrderbookCond, hp]
      · simp [noOrderbookCond, hp]
    rw [useOrderbookError, if_pos this]
  · rw [useOrderbookError, if_neg (by simp [hc])]
  · have : noOrderbookCond isOrderbookLoading orderbook = false := by
      subst hl
      simp [noOrderbookCond]
    rw [useOrderbookError, if_neg (by simp [this])]

/-- C3 witness: a finished load with no order-book yields the display code;
a loaded order-book with a pool passes a maker-fee error through. -/
theorem useOrderbookError_spec_witness :
    useOrderbookError false none (some ⟨"boom"⟩) = some "errors.noOrderbook" ∧
    useOrderbookError false (some ⟨"osmo1c", some "1449", "b", "q"⟩)
        (some ⟨"boom"⟩) = some "boom" := by
  constructor
  · exact (useOrderbookError_spec false none (some ⟨"boom"⟩)).1 rfl (Or.inl rfl)
  · exact (useOrderbookError_spec false (some ⟨"osmo1c", some "1449", "b", "q"⟩)
      (some ⟨"boom"⟩)).2.1 (by decide)

/-- The maker fee is an arbitrary-precision decimal (`Dec`); modelled as a
rational number. -/
abbrev Dec := Rat

/-- The maker-fee query's data; the fee may be absent
(`makerFeeData?.makerFee` is guarded with `?? new Dec(0)`). -/
structure MakerFeeData where
  makerFee : Option Dec

/-- Embeds the `makerFee` memo of `useMakerFee`: `Dec(0)` while loading,
otherwise `makerFeeData?.makerFee ?? new Dec(0)`. -/
def useMakerFee (isLoading : Bool) (makerFeeData : Option MakerFeeData) : Dec :=
  if isLoading then 0
  else (makerFeeData.bind MakerFeeData.makerFee).getD 0

/-- C9: `useMakerFee` never yields an absent maker fee: while the query is
loading, and whenever the loaded data carries no fee, the returned fee is
exactly `Dec(0)`; otherwise it is the fetched decimal unchanged. -/
theorem useMakerFee_default (isLoading : Bool) (d : Option MakerFeeData) :
    (isLoading = true → useMakerFee isLoading d = 0) ∧
    (d = none → useMakerFee isLoading d = 0) ∧
    (∀ m, d = some m → m.makerFee = none → useMakerFee isLoading d = 0) ∧
    (∀ m f, isLoading = false → d = some m → m.makerFee = some f →
      useMakerFee isLoading d = f) := by
  refine ⟨fun hl => ?_, fun hd => ?_, fun m hd hf => ?_, fun m f hl hd hf => ?_⟩
  · rw [useMakerFee, if_pos hl]
  · subst hd
    rw [useMakerFee]
    split <;> rfl
  · subst hd
    rw [useMakerFee]
    split
    · rfl
    · simp [hf]
  · subst hd hl
    rw [useMakerFee, if_neg (by simp)]
    simp [hf]

/-- C9 witness: a loaded fee of 3/100 is returned unchanged, and an absent
fee yields 0. -/
theorem useMakerFee_default_witness :
    useMakerFee false (some ⟨some (3 / 100)⟩) = 3 / 100 ∧
    useMakerFee false (some ⟨none⟩) = 0 :=
  ⟨(useMakerFee_default false (some ⟨some (3 / 100)⟩)).2.2.2 ⟨some (3 / 100)⟩
      (3 / 100) rfl rfl rfl,
    (useMakerFee_default false (some ⟨none⟩)).2.2.1 ⟨none⟩ rfl rfl⟩


/-- A claimable order as consumed by `claimAllOrders`: its owning order-book
contract and its tick/order identifiers. -/
structure ClaimableOrder where
  orderbookAddress : String
  tick_id : Int
  order_id : Int
deriving DecidableEq

/-- The `batch_claim` payload: the `[tick_id, order_id]` pairs. -/
structure BatchClaimPayload where
  orders : List (Int × Int)
deriving DecidableEq

/-- A coin primitive (denom and amount); `funds` is always empty here. -/
structure CoinPrimitive where
  denom : String
  amount : String
deriving DecidableEq

/-- One contract-execution message built by `claimAllOrders`. -/
structure ExecuteContractMsg where
  contractAddress : String
  msg : BatchClaimPayload
  funds : List CoinPrimitive
deriving DecidableEq

/-- Embeds the body of the `addresses.map(...)` callback in `claimAllOrders`:
the message for one contract address, or nothing when no claimable order
belongs to it. -/
def claimMsgForAddress (orders : List ClaimableOrder) (contractAddress : String) :
    Option ExecuteContractMsg :=
  let ordersForAddress := orders.filter fun o => o.orderbookAddress == contractAddress
  if ordersForAddress.length = 0 then none
  else some
    { contractAddress := contractAddress
      msg := { orders := ordersForAddress.map fun o => (o.tick_id, o.order_id) }
      funds := [] }

/-- Embeds `addresses.map(...).filter(Boolean)`: the message list built by
`claimAllOrders`. -/
def claimAllOrdersMsgs (addresses : List String) (orders : List ClaimableOrder) :
    List ExecuteContractMsg :=
  addresses.filterMap (claimMsgForAddress orders)

/-- Embeds `claimAllOrders`: `none` models an early return with no wallet
call; `some msgs` models the single
`sendMultiExecuteContractMsg("executeWasm", msgs)` submission.  The guards
are `!account || !orders` and `msgs.length > 0`. -/
def claimAllOrders {A : Type} (account : Option A)
    (orders : Option (List ClaimableOrder)) (addresses : List String) :
    Option (List ExecuteContractMsg) :=
  match account, orders with
  | some _, some os =>
    let msgs := claimAllOrdersMsgs addresses os
    if 0 < msgs.length then some msgs else none
  | _, _ => none

theorem claimMsgForAddress_eq_some {os : List ClaimableOrder} {ca : String}
    {m : ExecuteContractMsg} (h : claimMsgForAddress os ca = some m) :
    m.contractAddress = ca ∧ m.funds = [] ∧
    m.msg.orders =
      (os.filter fun o => o.orderbookAddress == ca).map
        (fun o => (o.tick_id, o.order_id)) ∧
    (os.filter fun o => o.orderbookAddress == ca) ≠ [] := by
  simp only [claimMsgForAddress] at h
  split at h
  · cases h
  · next hne =>
    obtain rfl := Option.some.inj h
    refine ⟨rfl, rfl, rfl, fun hnil => hne ?_⟩
    rw [hnil]
    rfl

theorem claimMsgForAddress_of_ne_nil {os : List ClaimableOrder} {ca : String}
    (h : (os.filter fun o => o.orderbookAddress == ca) ≠ []) :
    ∃ m, claimMsgForAddress os ca = some m := by
  rw [claimMsgForAddress]
  rw [if_neg (fun h0 => h (List.length_eq_zero.mp h0))]
  exact ⟨_, rfl⟩

theorem mem_claimAllOrdersMsgs_address {addresses : List String}
    {os : List ClaimableOrder} {m : ExecuteContractMsg}
    (h : m ∈ claimAllOrdersMsgs addresses os) : m.contractAddress ∈ addresses := by
  obtain ⟨a, ha, hfa⟩ := List.mem_filterMap.mp h
  rw [(claimMsgForAddress_eq_some hfa).1]
  exact ha

theorem filter_claimAllOrdersMsgs_not_mem {addresses : List String}
    {os : List ClaimableOrder} {ca : String} (hca : ca ∉ addresses) :
    ((claimAllOrdersMsgs addresses os).filter
      fun m => m.contractAddress == ca) = [] := by
  rw [List.filter_eq_nil_iff]
  intro m hm he
  rw [beq_iff_eq] at he
  exact hca (he ▸ mem_claimAllOrdersMsgs_address hm)

theorem filter_claimAllOrdersMsgs_length_one :
    ∀ (addresses : List String), addresses.Nodup →
    ∀ (os : List ClaimableOrder), ∀ ca ∈ addresses,
    (os.filter fun o => o.orderbookAddress == ca) ≠ [] →
    ((claimAllOrdersMsgs addresses os).filter
      fun m => m.contractAddress == ca).length = 1
  | [], _, _, ca, hca, _ => absurd hca (List.not_mem_nil ca)
  | a :: rest, hnd, os, ca, hca, hne => by
    obtain ⟨ha_nin, hnd'⟩ := List.nodup_cons.mp hnd
    rw [claimAllOrdersMsgs, List.filterMap_cons]
    rcases List.mem_cons.mp hca with rfl | hmem
    · obtain ⟨m, hm⟩ := claimMsgForAddress_of_ne_nil hne
      rw [hm, List.filter_cons,
        if_pos (by rw [beq_iff_eq]; exact (claimMsgForAddress_eq_some hm).1)]
      have htail :
          ((claimAllOrdersMsgs rest os).filter
            fun m => m.contractAddress == ca) = [] :=
        filter_claimAllOrdersMsgs_not_mem ha_nin
      rw [claimAllOrdersMsgs] at htail
      rw [htail]
      rfl
    · have hrec := filter_claimAllOrdersMsgs_length_one rest hnd' os ca hmem hne
      rw [claimAllOrdersMsgs] at hrec
      cases hfa : claimMsgForAddress os a with
      | none => exact hrec
      | some m =>
        rw [List.filter_cons, if_neg]
        · exact hrec
        · rw [beq_iff_eq, (claimMsgForAddress_eq_some hfa).1]
          intro he
          exact ha_nin (he ▸ hmem)

/-- C2: with a connected account and claimable orders of which at least one
belongs to a known order-book contract, `claimAllOrders` submits, in a single
batched wallet call, exactly the built message list; that list carries, for
every contract address with at least one matching order, exactly one message,
whose `batch_claim` payload holds precisely the `(tick_id, order_id)` pairs
of the orders with that `orderbookAddress`, with empty funds.  (The
order-book contract addresses are assumed pairwise distinct.) -/
theorem claimAllOrders_spec {A : Type} (acct : A) (os : List ClaimableOrder)
    (addresses : List String) (hnd : addresses.Nodup)
    (hmatch : ∃ o ∈ os, o.orderbookAddress ∈ addresses) :
    claimAllOrders (some acct) (some os) addresses =
      some (claimAllOrdersMsgs addresses os) ∧
    (∀ m ∈ claimAllOrdersMsgs addresses os,
      m.contractAddress ∈ addresses ∧
      m.funds = [] ∧
      m.msg.orders =
        (os.filter fun o => o.orderbookAddress == m.contractAddress).map
          (fun o => (o.tick_id, o.order_id)) ∧
      m.msg.orders ≠ []) ∧
    (∀ ca ∈ addresses,
      (os.filter fun o => o.orderbookAddress == ca) ≠ [] →
      ((claimAllOrdersMsgs addresses os).filter
        fun m => m.contractAddress == ca).length = 1) := by
  refine ⟨?_, fun m hm => ?_, fun ca hca hne =>
    filter_claimAllOrdersMsgs_length_one addresses hnd os ca hca hne⟩
  · obtain ⟨o, ho, hoa⟩ := hmatch
    have hfil : (os.filter fun o' => o'.orderbookAddress == o.orderbookAddress) ≠ [] := by
      intro hnil
      have : o ∈ os.filter fun o' => o'.orderbookAddress == o.orderbookAddress :=
        List.mem_filter.mpr ⟨ho, by rw [beq_iff_eq]⟩
      rw [hnil] at this
      exact List.not_mem_nil o this
    obtain ⟨m, hmsome⟩ := claimMsgForAddress_of_ne_nil hfil
    have hmem : m ∈ claimAllOrdersMsgs addresses os :=
      List.mem_filterMap.mpr ⟨o.orderbookAddress, hoa, hmsome⟩
    rw [claimAllOrders]
    rw [if_pos (List.length_pos.mpr (fun hnil => by
      rw [hnil] at hmem
      exact List.not_mem_nil m hmem))]
  · obtain ⟨a, ha, hfa⟩ := List.mem_filterMap.mp hm
    obtain ⟨haddr, hfunds, horders, hne⟩ := claimMsgForAddress_eq_some hfa
    subst haddr
    refine ⟨ha, hfunds, horders, fun hnil => hne ?_⟩
    rw [horders] at hnil
    exact List.map_eq_nil_iff.mp hnil

/-- C2 witness: two orders on one contract and one on another produce one
message per contract, batching the matching pairs. -/
theorem claimAllOrders_spec_witness :
    claimAllOrders (some ()) (some
        [⟨"osmo1a", 1, 10⟩, ⟨"osmo1b", 2, 20⟩, ⟨"osmo1a", 3, 30⟩])
        ["osmo1a", "osmo1b"] =
      some (claimAllOrdersMsgs ["osmo1a", "osmo1b"]
        [⟨"osmo1a", 1, 10⟩, ⟨"osmo1b", 2, 20⟩, ⟨"osmo1a", 3, 30⟩]) ∧
    ((claimAllOrdersMsgs ["osmo1a", "osmo1b"]
        [⟨"osmo1a", 1, 10⟩, ⟨"osmo1b", 2, 20⟩, ⟨"osmo1a", 3, 30⟩]).filter
      fun m => m.contractAddress == "osmo1a").length = 1 :=
  have h := claimAllOrders_spec ()
    [⟨"osmo1a", 1, 10⟩, ⟨"osmo1b", 2, 20⟩, ⟨"osmo1a", 3, 30⟩]
    ["osmo1a", "osmo1b"] (by decide)
    ⟨⟨"osmo1a", 1, 10⟩, by decide, by decide⟩
  ⟨h.1, h.2.2 "osmo1a" (by decide) (by decide)⟩

/-- C10: `claimAllOrders` performs no wallet submission when a precondition
fails: with no connected account, or absent claimable-order data, or no
claimable order matching any known order-book contract address, the batched
contract-execution call is never invoked. -/
theorem claimAllOrders_no_submission {A : Type} (account : Option A)
    (orders : Option (List ClaimableOrder)) (addresses : List String) :
    (account = none → claimAllOrders account orders addresses = none) ∧
    (orders = none → claimAllOrders account orders addresses = none) ∧
    (∀ os, orders = some os → (∀ o ∈ os, o.orderbookAddress ∉ addresses) →
      claimAllOrders account orders addresses = none) := by
  refine ⟨fun ha => ?_, fun ho => ?_, fun os ho hno => ?_⟩
  · subst ha
    rfl
  · subst ho
    cases account <;> rfl
  · subst ho
    cases account with
    | none => rfl
    | some acct =>
      have hnil : claimAllOrdersMsgs addresses os = [] := by
        rw [claimAllOrdersMsgs, List.filterMap_eq_nil_iff]
        intro a ha
        rw [claimMsgForAddress]
        rw [if_pos]
        rw [List.length_eq_zero, List.filter_eq_nil_iff]
        intro o ho hoa
        rw [beq_iff_eq] at hoa
        exact hno o ho (hoa ▸ ha)
      rw [claimAllOrders, hnil]
      rfl

/-- C10 witness: an order on an unknown contract triggers no submission, nor
does a missing account. -/
theorem claimAllOrders_no_submission_witness :
    claimAllOrders (some ()) (some [⟨"osmo1zzz", 1, 10⟩]) ["osmo1a"] = none ∧
    claimAllOrders (none : Option Unit) (some [⟨"osmo1a", 1, 10⟩]) ["osmo1a"] = none :=
  ⟨(claimAllOrders_no_submission (some ()) (some [⟨"osmo1zzz", 1, 10⟩])
      ["osmo1a"]).2.2 [⟨"osmo1zzz", 1, 10⟩] rfl (by decide),
    (claimAllOrders_no_submission (none : Option Unit) (some [⟨"osmo1a", 1, 10⟩])
      ["osmo1a"]).1 rfl⟩


end UseOrderbook
